import Mathlib

/-!
# ClipKeep clipboard-manager capture pipeline: a shallow embedding

This file embeds the capture-and-persistence pipeline of the ClipKeep
clipboard manager (`clipkeep_V2.251208.py`, the later of the two
implementations in the repository) and proves properties of it:

* the `ClipboardDatabase` operations (`add_text_record`,
  `add_image_record`, `check_duplicate_hash`, `update_text_content`,
  `delete_record`, `clear_all`, `get_count`, `trim_to_limit`),
* the `DBWorker` read modes (`load_all`, `get_detail`),
* the `ImageProcessWorker.run` image-ingest pipeline,
* the `ClipKeepApp.on_clipboard_change` classifier / dedup guard,
* the `on_text_edited` / `_do_save_pending` edit debouncer.

Modelling conventions:

* Machine bytes are `Nat` lists; `hashlib.md5(...).hexdigest()` is
  modelled by an injective function on byte lists (hash collisions are
  ignored, as the spec uses the hash purely as a content fingerprint).
* Python float arithmetic in the downscale computation is modelled as
  exact real arithmetic whose integer floor is expressed with `Nat.sqrt`
  and `Nat` division (`int(w * (maxArea/area) ** 0.5)` is the floor of
  `sqrt(w^2 * maxArea / area)`).
* Database failures are modelled by an explicit `fail` flag on each
  store operation standing for "the underlying SQL statement raised";
  the operation bodies translate the `try/except` structure of the
  source.
* Qt primitives (`QImage.scaled`, `QImage.save`, `QSize.scaled`) are
  modelled from Qt's documented semantics, including the degenerate
  cases (scaling to an empty target size yields a null image; saving a
  null image writes no bytes).
-/

/-- Abstract model of `hashlib.md5(bs).hexdigest()`: injective in the
input bytes, and never equal to the empty list (the app's initial
`last_clipboard_hash` sentinel `""`). -/
def md5hex (bs : List Nat) : List Nat := 1 :: bs

/-- Abstract model of `str.encode()` (UTF-8 serialization of a string):
the list of code points, injective in the string. -/
def strBytes (s : String) : List Nat := s.data.map Char.toNat

/-- Model of Python `str.strip()` on the character list: drop whitespace
from both ends. -/
def pyStripList (l : List Char) : List Char :=
  ((l.dropWhile Char.isWhitespace).reverse.dropWhile Char.isWhitespace).reverse

/-- Model of Python `str.strip()`. -/
def pyStrip (s : String) : String := ⟨pyStripList s.data⟩

/-- `MAX_IMAGE_AREA_PIXELS = 4 * 1024 * 1024` (source line 68). -/
def MAX_IMAGE_AREA_PIXELS : Nat := 4 * 1024 * 1024

/-- `THUMBNAIL_SIZE = 64` (source line 72). -/
def THUMBNAIL_SIZE : Nat := 64

/-- `SAVE_DEBOUNCE_MS = 700` (source line 69). -/
def SAVE_DEBOUNCE_MS : Nat := 700

/-- The `type` column of a record: `"text"` or `"image"`. -/
inductive RType where
  | text
  | image
deriving DecidableEq, Repr

/-- One row of the `records` table.  Text rows leave `blob`,
`thumbnail` empty and `width`/`height` zero (SQL NULL); image rows
leave `content` empty. -/
structure Rec where
  id : Nat
  rtype : RType
  content : String
  blob : List Nat
  timestamp : Nat
  thumbnail : List Nat
  fmt : String
  width : Nat
  height : Nat
  contentHash : List Nat
deriving DecidableEq, Repr

/-- The `records` table plus the AUTOINCREMENT counter (SQLite ids
start at 1). -/
structure Store where
  recs : List Rec
  nextId : Nat
deriving DecidableEq, Repr

/-- The empty database as created by `_init_database`. -/
def Store.empty : Store := ⟨[], 1⟩

namespace ClipboardDatabase

/-- `ClipboardDatabase.add_text_record(text, record_format)`: computes
`content_hash = md5(text.encode()).hexdigest()`, inserts, and returns
the new row id; on a storage error returns the sentinel 0 with the
store unchanged (`except: return 0`). -/
def add_text_record (fail : Bool) (st : Store) (text : String)
    (record_format : String) (ts : Nat) : Store × Nat :=
  if fail then (st, 0)
  else
    let content_hash := md5hex (strBytes text)
    let r : Rec :=
      ⟨st.nextId, RType.text, text, [], ts, [], record_format, 0, 0, content_hash⟩
    (⟨st.recs ++ [r], st.nextId + 1⟩, st.nextId)

/-- `ClipboardDatabase.add_image_record(image_data, thumbnail, fmt,
width, height, content_hash)`; sentinel 0 on error. -/
def add_image_record (fail : Bool) (st : Store) (image_data thumbnail : List Nat)
    (fmt : String) (width height : Nat) (content_hash : List Nat)
    (ts : Nat) : Store × Nat :=
  if fail then (st, 0)
  else
    let r : Rec :=
      ⟨st.nextId, RType.image, "", image_data, ts, thumbnail, fmt, width, height,
        content_hash⟩
    (⟨st.recs ++ [r], st.nextId + 1⟩, st.nextId)

/-- `ClipboardDatabase.check_duplicate_hash(content_hash)`:
`SELECT id FROM records WHERE content_hash = ? ... LIMIT 1` — true iff
some row has this hash; false on a storage error (`except: return
False`). -/
def check_duplicate_hash (fail : Bool) (st : Store) (h : List Nat) : Bool :=
  if fail then false
  else st.recs.any fun r => decide (r.contentHash = h)

/-- `ClipboardDatabase.update_text_content(record_id, new_text)`:
`UPDATE records SET content = ? WHERE id = ?`; silently a no-op on
error or when the id is absent. -/
def update_text_content (fail : Bool) (st : Store) (record_id : Nat)
    (new_text : String) : Store :=
  if fail then st
  else ⟨st.recs.map fun r => if r.id = record_id then { r with content := new_text } else r,
        st.nextId⟩

/-- `ClipboardDatabase.delete_record(record_id)`. -/
def delete_record (fail : Bool) (st : Store) (record_id : Nat) : Store :=
  if fail then st
  else ⟨st.recs.filter fun r => decide (r.id ≠ record_id), st.nextId⟩

/-- `ClipboardDatabase.clear_all()`: `DELETE FROM records`. -/
def clear_all (fail : Bool) (st : Store) : Store :=
  if fail then st else ⟨[], st.nextId⟩

/-- `ClipboardDatabase.get_count()`: `SELECT COUNT(*)`; 0 on error. -/
def get_count (fail : Bool) (st : Store) : Nat :=
  if fail then 0 else st.recs.length

end ClipboardDatabase

/-- Strict comparison of the sort key used by `ORDER BY timestamp
DESC` over the `idx_timestamp` index: the index is declared
`records(timestamp DESC)`, so SQLite satisfies the `DESC` ordering
with a forward scan of it, and among equal timestamps rows appear in
rowid (id) ascending order — the smaller id sorts first.  (Verified
against SQLite on the repository's exact schema and `DELETE ... NOT IN
(SELECT id ... ORDER BY timestamp DESC LIMIT ?)` statement.)
`recKeyLt a b` means `b` sorts strictly before `a` in that output. -/
def recKeyLt (a b : Rec) : Prop :=
  a.timestamp < b.timestamp ∨ (a.timestamp = b.timestamp ∧ b.id < a.id)

instance : DecidableRel recKeyLt := fun a b => by
  unfold recKeyLt; infer_instance

/-- `a` sorts no later than `b` in the `ORDER BY timestamp DESC`
output (ties by id ascending). -/
def recDescLE (a b : Rec) : Prop := ¬ recKeyLt a b

instance : DecidableRel recDescLE := fun a b => by
  unfold recDescLE; infer_instance

instance : IsTotal Rec recDescLE where
  total a b := by
    unfold recDescLE recKeyLt
    omega

instance : IsTrans Rec recDescLE where
  trans a b c hab hbc := by
    unfold recDescLE recKeyLt at *
    omega

/-- The result list of `SELECT id FROM records ORDER BY timestamp DESC`
(ties by id ascending, per the forward scan of the `DESC` index). -/
def sortDescRecs (l : List Rec) : List Rec := List.insertionSort recDescLE l

namespace ClipboardDatabase

/-- The body of `ClipboardDatabase.trim_to_limit(max_count)`:
`DELETE FROM records WHERE id NOT IN (SELECT id FROM records ORDER BY
timestamp DESC LIMIT max_count)`. -/
def trimRecs (l : List Rec) (max_count : Nat) : List Rec :=
  let keep := ((sortDescRecs l).take max_count).map Rec.id
  l.filter fun r => decide (r.id ∈ keep)

/-- `ClipboardDatabase.trim_to_limit(max_count)`; no-op on a storage
error. -/
def trim_to_limit (fail : Bool) (st : Store) (max_count : Nat) : Store :=
  if fail then st else ⟨trimRecs st.recs max_count, st.nextId⟩

end ClipboardDatabase

/-- The lightweight projection `DBWorker` mode `"load_all"` builds for
each row: `content` is the text for text rows and `None` for image rows
(the full blob is not shipped to the list view). -/
structure RecSummary where
  id : Nat
  rtype : RType
  content : Option String
  timestamp : Nat
  thumbnail : List Nat
  fmt : String
  contentHash : List Nat
deriving DecidableEq, Repr

/-- The row-to-summary conversion in `DBWorker.run`, mode
`"load_all"`. -/
def Rec.toSummary (r : Rec) : RecSummary :=
  ⟨r.id, r.rtype, if r.rtype = RType.text then some r.content else none,
    r.timestamp, r.thumbnail, r.fmt, r.contentHash⟩

/-- The outcome of one `DBWorker`/`ImageProcessWorker` run: `result` is
what the `result` signal delivered (nothing on error), `errored` is
whether the `error` signal fired, and `finished` is whether the
`finished` signal fired (it always does — it is emitted in a `finally`
block). -/
structure WorkerOutcome (α : Type) where
  result : Option α
  errored : Bool
  finished : Bool
deriving DecidableEq, Repr

/-- `DBWorker.run` with `mode == "load_all"`: `SELECT ... ORDER BY
timestamp DESC LIMIT ?` mapped to summaries; on a storage error no
result is delivered, only `error` and `finished`. -/
def dbWorkerLoadAll (fail : Bool) (st : Store) (limit : Nat) :
    WorkerOutcome (List RecSummary) :=
  if fail then ⟨none, true, true⟩
  else ⟨some (((sortDescRecs st.recs).take limit).map Rec.toSummary), false, true⟩

/-- `DBWorker.run` with `mode == "get_detail"`: fetch one row by id
(`output` stays `None` when the row is absent); on a storage error no
result is delivered. -/
def dbWorkerGetDetail (fail : Bool) (st : Store) (record_id : Nat) :
    WorkerOutcome (Option Rec) :=
  if fail then ⟨none, true, true⟩
  else ⟨some (st.recs.find? fun r => decide (r.id = record_id)), false, true⟩

/-- Model of a `QImage`: dimensions, whether `hasAlphaChannel()` holds,
and an abstract identifier for the pixel data. -/
structure QImageM where
  width : Nat
  height : Nat
  hasAlpha : Bool
  pixels : Nat
deriving DecidableEq, Repr

/-- `QImage.isNull()`: a `QImage` with a zero dimension is null. -/
def QImageM.isNull (img : QImageM) : Prop := img.width = 0 ∨ img.height = 0

instance (img : QImageM) : Decidable img.isNull := by
  unfold QImageM.isNull; infer_instance

/-- The null `QImage()`. -/
def nullQImage : QImageM := ⟨0, 0, false, 0⟩

/-- The two encodings `ImageProcessWorker` chooses between. -/
inductive ImgFmt where
  | PNG
  | JPEG
deriving DecidableEq, Repr

/-- The `format` column value for an encoding. -/
def ImgFmt.name : ImgFmt → String
  | .PNG => "PNG"
  | .JPEG => "JPEG"

/-- The magic prefix of each container format (PNG files start
`\x89PNG`, JPEG files start `\xff\xd8`), which makes encodings of the
two formats distinct byte strings. -/
def ImgFmt.magic : ImgFmt → List Nat
  | .PNG => [137, 80, 78, 71]
  | .JPEG => [255, 216]

/-- Abstract model of the encoded bytes a successful
`QImage.save(buffer, fmt, quality)` writes: determined by the format,
the dimensions, the alpha flag, the pixel data, and (for the lossy
JPEG encoder) the quality. -/
def encodeImage (img : QImageM) (fmt : ImgFmt) (quality : Int) : List Nat :=
  fmt.magic ++ [img.width, img.height, if img.hasAlpha then 1 else 0, img.pixels]
    ++ (if fmt = ImgFmt.JPEG then [quality.toNat] else [])

/-- `QImage.save` on a null image fails and writes nothing, so the
capture buffer stays empty. -/
def qimageSaveBytes (img : QImageM) (fmt : ImgFmt) (quality : Int) : List Nat :=
  if img.isNull then [] else encodeImage img fmt quality

/-- `QSize(w, h).scaled(tw, th, Qt.KeepAspectRatio)` (Qt's
`QSize::scaled`): the largest size with the source aspect ratio fitting
in the target, computed with 64-bit integer division; a zero source
dimension returns the target unchanged. -/
def qsizeScaledKeepAspect (w h tw th : Nat) : Nat × Nat :=
  if w = 0 ∨ h = 0 then (tw, th)
  else
    let rw := th * w / h
    if rw ≤ tw then (rw, th) else (tw, tw * h / w)

/-- `QImage.scaled(tw, th, Qt.KeepAspectRatio, smooth)` (Qt's
`QImage::scaled`): null in, null out; an empty target size yields a
null image; otherwise the aspect-fitted size is clamped to at least
1×1.  The alpha flag is preserved; pixel data is resampled (kept
abstract here). -/
def qimageScaled (img : QImageM) (tw th : Nat) : QImageM :=
  if img.isNull then nullQImage
  else if tw = 0 ∨ th = 0 then nullQImage
  else
    let p := qsizeScaledKeepAspect img.width img.height tw th
    ⟨max p.1 1, max p.2 1, img.hasAlpha, img.pixels⟩

/-- The resize step of `ImageProcessWorker.run`: when `save_original`
is false and `width*height > max_area`, compute
`scale_factor = (max_area / area) ** 0.5` (a `ZeroDivisionError` if the
area is zero), floor `width * scale_factor` and `height * scale_factor`
to integers, and scale; otherwise keep the image.  The float arithmetic
is modelled exactly: `int(w * sqrt(max_area/area))` is
`Nat.sqrt (w * w * max_area / area)`. -/
def workerPersistImage (img : QImageM) (max_area : Nat) (save_original : Bool) :
    Except String QImageM :=
  if save_original then Except.ok img
  else
    let area := img.width * img.height
    if area > max_area then
      if area = 0 then Except.error "ZeroDivisionError"
      else
        let new_width := Nat.sqrt (img.width * img.width * max_area / area)
        let new_height := Nat.sqrt (img.height * img.height * max_area / area)
        Except.ok (qimageScaled img new_width new_height)
    else Except.ok img

/-- `ImageProcessWorker.run`: resize if needed, thumbnail, choose PNG
iff the (possibly downscaled) image has an alpha channel else JPEG at
quality 90, encode, hash the encoded bytes, and insert the row with the
persisted dimensions.  Any raised error is represented in the
`Except`; the caller (`run`'s own `try/except`) swallows it. -/
def imageProcessWorkerE (img : QImageM) (max_area : Nat) (save_original : Bool)
    (st : Store) (ts : Nat) : Except String (Store × Rec × List Nat) :=
  match workerPersistImage img max_area save_original with
  | Except.error e => Except.error e
  | Except.ok persist =>
  let thumb := qimageScaled persist THUMBNAIL_SIZE THUMBNAIL_SIZE
  let thumbBytes := qimageSaveBytes thumb ImgFmt.PNG (-1)
  let has_alpha := persist.hasAlpha
  let fmt := if has_alpha then ImgFmt.PNG else ImgFmt.JPEG
  let quality : Int := if fmt = ImgFmt.PNG then -1 else 90
  let imgBytes := qimageSaveBytes persist fmt quality
  let content_hash := md5hex imgBytes
  let r : Rec :=
    ⟨st.nextId, RType.image, "", imgBytes, ts, thumbBytes, fmt.name,
      persist.width, persist.height, content_hash⟩
  Except.ok (⟨st.recs ++ [r], st.nextId + 1⟩, r, content_hash)

/-- A URL from `mime_data.urls()`: whether `isLocalFile()` holds and
what `toLocalFile()` returns. -/
structure UrlM where
  isLocal : Bool
  localPath : String
deriving DecidableEq, Repr

/-- A clipboard snapshot: which representations `mime_data` exposes and
their payloads (`clipboard.image()`, `mime_data.urls()`,
`mime_data.html()`, `clipboard.text()`). -/
structure Snapshot where
  hasImage : Bool
  image : QImageM
  hasUrls : Bool
  urls : List UrlM
  hasHtml : Bool
  html : String
  hasText : Bool
  text : String
deriving DecidableEq, Repr

/-- The settings the pipeline reads (`settings.get(...)`). -/
structure SettingsM where
  maxHistory : Nat
  saveOriginalImage : Bool
  enableRichText : Bool
  enableFilePaths : Bool
deriving DecidableEq, Repr

/-- The pipeline-owned mutable state of `ClipKeepApp`: the store, the
in-process `last_clipboard_hash`, the `is_internal_copy` one-shot flag,
and a logical clock stamping inserts (`datetime.now().timestamp()`,
modelled as monotonically increasing). -/
structure AppState where
  store : Store
  lastClipboardHash : List Nat
  isInternalCopy : Bool
  now : Nat
deriving DecidableEq, Repr

/-- The state right after startup with a fresh database:
`last_clipboard_hash = ""`, `is_internal_copy = False`. -/
def initAppState : AppState := ⟨Store.empty, [], false, 0⟩

/-- A snapshot exposing only a plain-text representation, as in the
spec's dedup scenario (capture "A", then "B", then "A"). -/
def textOnlySnapshot (s : String) : Snapshot :=
  ⟨false, nullQImage, false, [], false, "", true, s⟩

/-- The dedup hash `on_clipboard_change` computes for an image
candidate: the MD5 of the PNG encoding of the original clipboard image
(`image.save(buffer, "PNG")` before any resizing or format choice). -/
def imageDedupHash (img : QImageM) : List Nat :=
  md5hex (qimageSaveBytes img ImgFmt.PNG (-1))

/-- `ClipKeepApp.add_text_record(text, fmt)`: synchronous insert
followed by `trim_to_limit(max_history)`.  Returns the new state and
the inserted record. -/
def appAddTextRecord (settings : SettingsM) (st : AppState) (text : String)
    (fmt : String) (h : List Nat) : AppState × List Rec :=
  let store1 := (ClipboardDatabase.add_text_record false st.store text fmt st.now).1
  let store2 := ClipboardDatabase.trim_to_limit false store1 settings.maxHistory
  let r : Rec := ⟨st.store.nextId, RType.text, text, [], st.now, [], fmt, 0, 0,
    md5hex (strBytes text)⟩
  ({ st with store := store2, lastClipboardHash := h, now := st.now + 1 }, [r])

/-- One text-tier body of `on_clipboard_change`: the dedup guard
(`current_hash != self.last_clipboard_hash and not
self.db.check_duplicate_hash(current_hash)`), then
`self.last_clipboard_hash = current_hash` and `add_text_record`. -/
def captureText (settings : SettingsM) (st : AppState) (content : String)
    (fmt : String) : AppState × List Rec :=
  let h := md5hex (strBytes content)
  if h ≠ st.lastClipboardHash ∧
      ClipboardDatabase.check_duplicate_hash false st.store h = false then
    appAddTextRecord settings st content fmt h
  else (st, [])

/-- The image-tier body: compute the dedup hash over the PNG bytes of
the original image, apply the dedup guard, set `last_clipboard_hash`,
then run `ImageProcessWorker` (whose own `try/except` swallows errors,
inserting nothing on failure) and `trim_to_limit` from the worker's
`finished` callback (which fires even on error). -/
def captureImage (settings : SettingsM) (st : AppState) (img : QImageM) :
    AppState × List Rec :=
  let h := imageDedupHash img
  if h ≠ st.lastClipboardHash ∧
      ClipboardDatabase.check_duplicate_hash false st.store h = false then
    match imageProcessWorkerE img MAX_IMAGE_AREA_PIXELS
        settings.saveOriginalImage st.store st.now with
    | Except.ok (store1, r, _hash) =>
        ({ st with
            store := ClipboardDatabase.trim_to_limit false store1 settings.maxHistory
            lastClipboardHash := h
            now := st.now + 1 }, [r])
    | Except.error _ =>
        ({ st with
            store := ClipboardDatabase.trim_to_limit false st.store settings.maxHistory
            lastClipboardHash := h }, [])
  else (st, [])

/-- `ClipKeepApp.on_clipboard_change`: consume the one-shot
`is_internal_copy` flag, else evaluate the priority tiers.  A tier's
body runs (and processing stops) exactly when its entry condition
holds: images need `hasImage()` and a non-null image; file paths need
the setting, `hasUrls()` and a nonempty local-file list; rich text
needs the setting, `hasHtml()` and more than 20 characters; plain text
needs `hasText()` and a nonempty stripped text.  Within a selected
tier dedup rejection produces nothing, with no fallthrough.  Returns
the new state and the records the event inserted (including those
inserted by the enqueued image worker). -/
def onClipboardChange (settings : SettingsM) (st : AppState) (snap : Snapshot) :
    AppState × List Rec :=
  if st.isInternalCopy then ({ st with isInternalCopy := false }, [])
  else if snap.hasImage = true ∧ ¬ snap.image.isNull then
    captureImage settings st snap.image
  else if settings.enableFilePaths = true ∧ snap.hasUrls = true ∧
      ((snap.urls.filter (fun u => u.isLocal)).map UrlM.localPath) ≠ [] then
    let local_files := (snap.urls.filter (fun u => u.isLocal)).map UrlM.localPath
    captureText settings st (String.intercalate "\n" local_files) "file"
  else if settings.enableRichText = true ∧ snap.hasHtml = true ∧
      snap.html.length > 20 then
    captureText settings st snap.html "html"
  else if snap.hasText = true ∧ pyStrip snap.text ≠ "" then
    captureText settings st (pyStrip snap.text) "plain"
  else (st, [])

/-- The debouncer-owned state: `_pending_save_id`,
`_pending_save_text`, the single-shot `_save_timer` deadline (absolute
time in ms when armed), the store, and the log of persisted writes. -/
structure DebState where
  pendingId : Option Nat
  pendingText : Option String
  deadline : Option Nat
  store : Store
  writes : List (Nat × String)
deriving DecidableEq, Repr

/-- `ClipKeepApp._do_save_pending`: if `self._pending_save_id and
self._pending_save_text is not None` (Python truthiness: `None` and
`0` are falsy), write the buffered text to the buffered record id and
clear the buffer. -/
def doSavePending (st : DebState) : DebState :=
  match st.pendingId, st.pendingText with
  | some rid, some txt =>
      if rid ≠ 0 then
        { st with
            store := ClipboardDatabase.update_text_content false st.store rid txt
            pendingId := none
            pendingText := none
            writes := st.writes ++ [(rid, txt)] }
      else st
  | _, _ => st

/-- One edit event at time `t` while record `rid` is the current text
record: `ClipKeepApp.on_text_edited` sets `_pending_save_id` to the
current record's id, buffers the editor text, and restarts the
single-shot 700 ms timer. -/
def onTextEdited (st : DebState) (rid : Nat) (txt : String) (t : Nat) : DebState :=
  { st with
      pendingId := some rid
      pendingText := some txt
      deadline := some (t + SAVE_DEBOUNCE_MS) }

/-- An edit event: the id of the record current at edit time, the
editor text, and the wall-clock time in ms. -/
structure EditEvent where
  rid : Nat
  txt : String
  t : Nat
deriving DecidableEq, Repr

/-- Deliver an edit event: if the armed timer's deadline has already
passed by the event's time, it fires first (`_do_save_pending`), then
the edit is processed. -/
def stepEdit (st : DebState) (e : EditEvent) : DebState :=
  let st1 :=
    match st.deadline with
    | some d => if d ≤ e.t then doSavePending { st with deadline := none } else st
    | none => st
  onTextEdited st1 e.rid e.txt e.t

/-- After the last event, let an armed timer expire and fire. -/
def flushTimer (st : DebState) : DebState :=
  match st.deadline with
  | some _ => doSavePending { st with deadline := none }
  | none => st

/-- Run a time-ordered sequence of edit events to quiescence: deliver
each event (firing the timer when its deadline has passed) and finally
let the timer expire. -/
def runEdits (st : DebState) (events : List EditEvent) : DebState :=
  flushTimer (events.foldl stepEdit st)

/-! ## Helper lemmas -/

/-- The resize step never raises: the `ZeroDivisionError` branch needs
`area = 0` under the guard `area > max_area`, which is impossible for
naturals. -/
theorem workerPersistImage_ok (img : QImageM) (ma : Nat) (so : Bool) :
    ∃ p, workerPersistImage img ma so = Except.ok p := by
  simp only [workerPersistImage]
  split_ifs with h1 h2 h3
  · exact ⟨img, rfl⟩
  · omega
  · exact ⟨_, rfl⟩
  · exact ⟨img, rfl⟩

/-- `ImageProcessWorker.run` never raises: its only internal failure
point is the guarded scale division. -/
theorem imageProcessWorkerE_ok (img : QImageM) (ma : Nat) (so : Bool)
    (st : Store) (ts : Nat) :
    ∃ out, imageProcessWorkerE img ma so st ts = Except.ok out := by
  obtain ⟨p, hp⟩ := workerPersistImage_ok img ma so
  exact ⟨_, by rw [imageProcessWorkerE, hp]⟩

/-- Records inserted by a text-tier body are text records with the
captured content, format, and hash. -/
theorem captureText_mem (settings : SettingsM) (st : AppState)
    (content fmt : String) :
    ∀ r ∈ (captureText settings st content fmt).2,
      r.rtype = RType.text ∧ r.content = content ∧ r.fmt = fmt ∧
        r.contentHash = md5hex (strBytes content) := by
  intro r hr
  simp only [captureText, appAddTextRecord] at hr
  split at hr
  · simp only [List.mem_singleton] at hr
    subst hr
    exact ⟨rfl, rfl, rfl, rfl⟩
  · simp at hr

/-- Field-level description of a successful `ImageProcessWorker.run`:
the inserted row is an image record whose dimensions are those of the
persisted (possibly downscaled) image, whose format is PNG iff that
image has an alpha channel (else JPEG at quality 90), whose blob is the
encoded bytes, and whose `content_hash` is the hash of those bytes. -/
theorem imageProcessWorkerE_fields (img : QImageM) (ma : Nat) (so : Bool)
    (st : Store) (ts : Nat) (out : Store × Rec × List Nat)
    (h : imageProcessWorkerE img ma so st ts = Except.ok out) :
    ∃ persist, workerPersistImage img ma so = Except.ok persist ∧
      out.2.1.rtype = RType.image ∧
      out.2.1.id = st.nextId ∧
      out.2.1.width = persist.width ∧
      out.2.1.height = persist.height ∧
      out.2.1.fmt = (if persist.hasAlpha then ImgFmt.PNG else ImgFmt.JPEG).name ∧
      out.2.1.blob = qimageSaveBytes persist
        (if persist.hasAlpha then ImgFmt.PNG else ImgFmt.JPEG)
        (if persist.hasAlpha then (-1 : Int) else 90) ∧
      out.2.1.contentHash = md5hex out.2.1.blob ∧
      out.1.recs = st.recs ++ [out.2.1] ∧
      out.1.nextId = st.nextId + 1 ∧
      out.2.2 = out.2.1.contentHash := by
  rw [imageProcessWorkerE] at h
  cases hw : workerPersistImage img ma so with
  | error e =>
      rw [hw] at h
      exact absurd h (by simp)
  | ok persist =>
      rw [hw] at h
      injection h with h'
      subst h'
      refine ⟨persist, rfl, rfl, rfl, rfl, rfl, ?_, ?_, rfl, rfl, rfl, rfl⟩
      · cases hpa : persist.hasAlpha <;> simp [hpa]
      · cases hpa : persist.hasAlpha <;> simp [hpa]

/-- `Char.toNat` is injective, so the byte serialization of a string
determines its characters. -/
theorem charToNat_injective : Function.Injective Char.toNat := by
  intro a b h
  have hval : a.val = b.val := UInt32.eq_of_val_eq (Fin.ext h)
  exact Char.eq_of_val_eq hval

/-- `strBytes` is injective: distinct strings serialize to distinct
byte lists. -/
theorem strBytes_injective : Function.Injective strBytes := by
  intro x y h
  have hdata : x.data = y.data :=
    List.map_injective_iff.mpr charToNat_injective h
  cases x; cases y
  exact congrArg String.mk hdata

/-- Distinct strings have distinct content hashes (in the
collision-free hash model). -/
theorem md5hex_strBytes_ne {a b : String} (hab : a ≠ b) :
    md5hex (strBytes a) ≠ md5hex (strBytes b) := by
  intro h
  simp only [md5hex, List.cons.injEq, true_and] at h
  exact hab (strBytes_injective h)

/-- A capture's hash is never the startup sentinel `""`. -/
theorem md5hex_ne_nil (bs : List Nat) : md5hex bs ≠ [] := by
  simp [md5hex]

/-- `trim_to_limit` on a store already within the limit deletes
nothing. -/
theorem trimRecs_eq_self (l : List Rec) (max_count : Nat)
    (hlen : l.length ≤ max_count) :
    ClipboardDatabase.trimRecs l max_count = l := by
  have hperm : List.Perm (sortDescRecs l) l := List.perm_insertionSort recDescLE l
  unfold ClipboardDatabase.trimRecs
  rw [List.take_of_length_le (by rw [hperm.length_eq]; exact hlen)]
  apply List.filter_eq_self.mpr
  intro r hr
  simp only [decide_eq_true_eq]
  exact List.mem_map_of_mem Rec.id (hperm.mem_iff.mpr hr)

/-- Stripping an already-stripped character list is a no-op. -/
theorem pyStripList_idem (l : List Char) :
    pyStripList (pyStripList l) = pyStripList l := by
  have hdef : ∀ x : List Char, pyStripList x =
      List.rdropWhile Char.isWhitespace (List.dropWhile Char.isWhitespace x) :=
    fun x => rfl
  have hpre : List.rdropWhile Char.isWhitespace (List.dropWhile Char.isWhitespace l)
      <+: List.dropWhile Char.isWhitespace l :=
    List.rdropWhile_prefix _ _
  have h1 : List.dropWhile Char.isWhitespace
      (List.rdropWhile Char.isWhitespace (List.dropWhile Char.isWhitespace l)) =
      List.rdropWhile Char.isWhitespace (List.dropWhile Char.isWhitespace l) := by
    rw [List.dropWhile_eq_self_iff]
    intro hl
    have hlen : 0 < (List.dropWhile Char.isWhitespace l).length :=
      hl.trans_le hpre.length_le
    have h0 : ¬ Char.isWhitespace
        ((List.dropWhile Char.isWhitespace l).get ⟨0, hlen⟩) :=
      List.dropWhile_get_zero_not _ l hlen
    simp only [List.get_eq_getElem] at h0 ⊢
    rw [hpre.getElem hl]
    exact h0
  rw [hdef, hdef, h1, List.rdropWhile_idempotent]

/-- Stripping an already-stripped string is a no-op, so a stripped
string has no leading or trailing whitespace. -/
theorem pyStrip_idem (s : String) : pyStrip (pyStrip s) = pyStrip s :=
  congrArg String.mk (pyStripList_idem s.data)

/-- Explicit form of an accepted text-tier capture whose store stays
within the history limit. -/
theorem captureText_accept_eq (settings : SettingsM) (st : AppState)
    (content fmt : String)
    (hne : md5hex (strBytes content) ≠ st.lastClipboardHash)
    (hdup : ClipboardDatabase.check_duplicate_hash false st.store
      (md5hex (strBytes content)) = false)
    (hlen : st.store.recs.length + 1 ≤ settings.maxHistory) :
    captureText settings st content fmt =
      ({ st with
          store := ⟨st.store.recs ++
            [⟨st.store.nextId, RType.text, content, [], st.now, [], fmt, 0, 0,
              md5hex (strBytes content)⟩], st.store.nextId + 1⟩
          lastClipboardHash := md5hex (strBytes content)
          now := st.now + 1 },
        [⟨st.store.nextId, RType.text, content, [], st.now, [], fmt, 0, 0,
          md5hex (strBytes content)⟩]) := by
  rw [captureText, if_pos ⟨hne, hdup⟩]
  simp only [appAddTextRecord, ClipboardDatabase.add_text_record,
    ClipboardDatabase.trim_to_limit, Bool.false_eq_true, if_false,
    if_neg Bool.false_ne_true]
  rw [trimRecs_eq_self _ _ (by simpa using hlen)]

/-- Explicit form of a rejected (dedup-suppressed) text-tier capture. -/
theorem captureText_reject_eq (settings : SettingsM) (st : AppState)
    (content fmt : String)
    (hrej : md5hex (strBytes content) = st.lastClipboardHash ∨
      ClipboardDatabase.check_duplicate_hash false st.store
        (md5hex (strBytes content)) = true) :
    captureText settings st content fmt = (st, []) := by
  rw [captureText, if_neg]
  rcases hrej with h | h
  · exact fun hc => hc.1 h
  · exact fun hc => by rw [hc.2] at h; exact Bool.false_ne_true h

/-- A text-only snapshot with nonempty stripped text always selects
the plain-text tier. -/
theorem onClipboardChange_textOnly (settings : SettingsM) (st : AppState)
    (s : String) (hic : st.isInternalCopy = false) (hs : pyStrip s ≠ "") :
    onClipboardChange settings st (textOnlySnapshot s) =
      captureText settings st (pyStrip s) "plain" := by
  rw [onClipboardChange, if_neg (by simp [hic]),
    if_neg (by simp [textOnlySnapshot]), if_neg (by simp [textOnlySnapshot]),
    if_neg (by simp [textOnlySnapshot]), if_pos ⟨rfl, hs⟩]
  rfl

/-- An edit event arriving strictly before any armed deadline does not
fire the timer: it only re-keys the buffer and restarts the timer. -/
theorem stepEdit_no_fire (st : DebState) (e : EditEvent)
    (hdl : ∀ d, st.deadline = some d → e.t < d) :
    stepEdit st e =
      { st with
          pendingId := some e.rid
          pendingText := some e.txt
          deadline := some (e.t + SAVE_DEBOUNCE_MS) } := by
  rw [stepEdit]
  cases hst : st.deadline with
  | none => simp [hst, onTextEdited]
  | some d =>
      have hlt : ¬ d ≤ e.t := by have := hdl d hst; omega
      simp [hst, hlt, onTextEdited]

/-- Folding a chain of edits each arriving within the debounce window
of its predecessor never fires the timer: the final state buffers the
last edit, with the deadline armed from the last edit's time, and the
store and write log untouched. -/
theorem foldl_stepEdit_chain (rest : List EditEvent) :
    ∀ (e : EditEvent) (st : DebState),
      (∀ d, st.deadline = some d → e.t < d) →
      List.Chain' (fun x y => y.t < x.t + SAVE_DEBOUNCE_MS) (e :: rest) →
      (e :: rest).foldl stepEdit st =
        { st with
            pendingId := some ((e :: rest).getLast (List.cons_ne_nil e rest)).rid
            pendingText := some ((e :: rest).getLast (List.cons_ne_nil e rest)).txt
            deadline := some (((e :: rest).getLast (List.cons_ne_nil e rest)).t +
              SAVE_DEBOUNCE_MS) } := by
  induction rest with
  | nil =>
      intro e st hdl _
      simp only [List.foldl, List.getLast_singleton]
      exact stepEdit_no_fire st e hdl
  | cons e' rest ih =>
      intro e st hdl hch
      have hgap : e'.t < e.t + SAVE_DEBOUNCE_MS := hch.rel_head
      have hch' : List.Chain' (fun x y => y.t < x.t + SAVE_DEBOUNCE_MS)
          (e' :: rest) := hch.tail
      rw [List.foldl_cons, stepEdit_no_fire st e hdl]
      rw [ih e' _ (by intro d hd; injection hd with hd; omega) hch']
      rfl

/-- The key comparison is irreflexive. -/
theorem recKeyLt_irrefl (r : Rec) : ¬ recKeyLt r r := by
  unfold recKeyLt; omega

/-- Rank characterization of `take` on a list sorted by `(timestamp,
id)` descending with pairwise-distinct ids: a member is among the
first `n` entries iff fewer than `n` members sort strictly before
it. -/
theorem mem_take_sorted_iff :
    ∀ (l : List Rec) (n : Nat), List.Sorted recDescLE l →
      (l.map Rec.id).Nodup → ∀ r ∈ l,
      (r ∈ l.take n ↔ l.countP (fun x => decide (recKeyLt r x)) < n) := by
  intro l
  induction l with
  | nil => simp
  | cons a t ih =>
      intro n hsort hnd r hr
      have hsort' : List.Sorted recDescLE t := hsort.of_cons
      have hall : ∀ x ∈ t, ¬ recKeyLt a x := fun x hx =>
        List.rel_of_sorted_cons hsort x hx
      have hnd' : (t.map Rec.id).Nodup := (List.nodup_cons.mp hnd).2
      have hidnotin : a.id ∉ t.map Rec.id := (List.nodup_cons.mp hnd).1
      rcases List.mem_cons.mp hr with hra | hrt
      · subst hra
        have hcnt : (r :: t).countP (fun x => decide (recKeyLt r x)) = 0 := by
          apply List.countP_eq_zero.mpr
          intro x hx
          rcases List.mem_cons.mp hx with hxa | hxt
          · subst hxa; simpa using recKeyLt_irrefl x
          · simpa using hall x hxt
        rw [hcnt]
        cases n with
        | zero => simp
        | succ m => simp [List.take_succ_cons]
      · have hne : r ≠ a := by
          intro he
          subst he
          exact hidnotin (List.mem_map_of_mem Rec.id hrt)
      -- among equal timestamps ids differ, so `r` sorts strictly after `a`
        have hlt : recKeyLt r a := by
          have hnab : ¬ recKeyLt a r := hall r hrt
          have hids : r.id ≠ a.id := by
            intro he
            exact hidnotin (he ▸ List.mem_map_of_mem Rec.id hrt)
          unfold recKeyLt at hnab ⊢
          omega
        have hcnt : (a :: t).countP (fun x => decide (recKeyLt r x)) =
            t.countP (fun x => decide (recKeyLt r x)) + 1 := by
          rw [List.countP_cons]
          simp [hlt]
        rw [hcnt]
        cases n with
        | zero => simp
        | succ m =>
            rw [List.take_succ_cons]
            constructor
            · intro hmem
              rcases List.mem_cons.mp hmem with h | h
              · exact absurd h hne
              · have := (ih m hsort' hnd' r hrt).mp h
                omega
            · intro hcount
              have := (ih m hsort' hnd' r hrt).mpr (by omega)
              exact List.mem_cons_of_mem a this

/-! ## Claim theorems -/

/-- C9: no Content Store operation propagates a storage-layer error:
on failure every write returns normally with its sentinel (`0` for
inserts, unchanged store otherwise) and every read returns an
empty/zero/not-found result; the worker reads additionally still fire
their `finished` signal. -/
theorem store_ops_error_sentinels :
    ∀ (st : Store) (text fmt txt : String) (ts : Nat)
      (bytes thumb h : List Nat) (w hgt rid limit : Nat),
      ClipboardDatabase.add_text_record true st text fmt ts = (st, 0) ∧
      ClipboardDatabase.add_image_record true st bytes thumb fmt w hgt h ts = (st, 0) ∧
      ClipboardDatabase.update_text_content true st rid txt = st ∧
      ClipboardDatabase.delete_record true st rid = st ∧
      ClipboardDatabase.clear_all true st = st ∧
      ClipboardDatabase.trim_to_limit true st limit = st ∧
      ClipboardDatabase.get_count true st = 0 ∧
      ClipboardDatabase.check_duplicate_hash true st h = false ∧
      dbWorkerLoadAll true st limit = ⟨none, true, true⟩ ∧
      dbWorkerGetDetail true st rid = ⟨none, true, true⟩ := by
  intros
  exact ⟨rfl, rfl, rfl, rfl, rfl, rfl, rfl, rfl, rfl, rfl⟩

/-- C7: a clipboard image with a zero dimension is null, so
`on_clipboard_change` never hands it to the image worker — any record
the event produces comes from a text tier — and the worker itself can
never raise the division by zero in the scale computation (its guard
`area > max_area` already excludes `area = 0`), so image ingest never
fails with a division error. -/
theorem zero_dimension_image_rejected (settings : SettingsM) (st : AppState)
    (snap : Snapshot) (hic : st.isInternalCopy = false)
    (hz : snap.image.width = 0 ∨ snap.image.height = 0) :
    (∀ r ∈ (onClipboardChange settings st snap).2, r.rtype = RType.text) ∧
    (∀ (img : QImageM) (ma : Nat) (so : Bool) (store : Store) (ts : Nat),
      ∃ out, imageProcessWorkerE img ma so store ts = Except.ok out) := by
  constructor
  · intro r hr
    have hnull : snap.image.isNull := hz
    unfold onClipboardChange at hr
    rw [if_neg (by simp [hic])] at hr
    rw [if_neg (by simp [hnull])] at hr
    split at hr
    · exact (captureText_mem _ _ _ _ r hr).1
    · split at hr
      · exact (captureText_mem _ _ _ _ r hr).1
      · split at hr
        · exact (captureText_mem _ _ _ _ r hr).1
        · simp at hr
  · exact fun img ma so store ts => imageProcessWorkerE_ok img ma so store ts

/-- C2: when the snapshot offers a non-null image, the image tier is
selected exclusively — every record the event produces is an Image
record; if the Dedup Guard accepts the hash, exactly one Image record
is produced (so zero Text records even when text is also present); and
if the Dedup Guard rejects, nothing at all is produced and the state is
untouched — no fallthrough to a lower tier. -/
theorem classifier_image_priority (settings : SettingsM) (st : AppState)
    (snap : Snapshot) (hic : st.isInternalCopy = false)
    (hi : snap.hasImage = true) (hn : ¬ snap.image.isNull) :
    (∀ r ∈ (onClipboardChange settings st snap).2, r.rtype = RType.image) ∧
    (imageDedupHash snap.image ≠ st.lastClipboardHash →
      ClipboardDatabase.check_duplicate_hash false st.store
        (imageDedupHash snap.image) = false →
      ∃ r, (onClipboardChange settings st snap).2 = [r] ∧ r.rtype = RType.image) ∧
    ((imageDedupHash snap.image = st.lastClipboardHash ∨
        ClipboardDatabase.check_duplicate_hash false st.store
          (imageDedupHash snap.image) = true) →
      (onClipboardChange settings st snap).2 = [] ∧
        (onClipboardChange settings st snap).1 = st) := by
  have hred : onClipboardChange settings st snap = captureImage settings st snap.image := by
    rw [onClipboardChange, if_neg (by simp [hic]), if_pos ⟨hi, hn⟩]
  rw [hred]
  have haccept : ∀ hne : imageDedupHash snap.image ≠ st.lastClipboardHash,
      ∀ hdup : ClipboardDatabase.check_duplicate_hash false st.store
        (imageDedupHash snap.image) = false,
      ∃ r, (captureImage settings st snap.image).2 = [r] ∧ r.rtype = RType.image := by
    intro hne hdup
    obtain ⟨out, hout⟩ := imageProcessWorkerE_ok snap.image MAX_IMAGE_AREA_PIXELS
      settings.saveOriginalImage st.store st.now
    obtain ⟨persist, -, hty, -⟩ := imageProcessWorkerE_fields _ _ _ _ _ _ hout
    rw [captureImage, if_pos ⟨hne, hdup⟩]
    rcases out with ⟨store1, r, hsh⟩
    rw [hout]
    exact ⟨r, rfl, hty⟩
  refine ⟨?_, haccept, ?_⟩
  · intro r hr
    by_cases hne : imageDedupHash snap.image ≠ st.lastClipboardHash
    · by_cases hdup : ClipboardDatabase.check_duplicate_hash false st.store
        (imageDedupHash snap.image) = false
      · obtain ⟨r', hr', hty⟩ := haccept hne hdup
        rw [hr'] at hr
        simp only [List.mem_singleton] at hr
        exact hr ▸ hty
      · rw [captureImage, if_neg (by tauto)] at hr
        simp at hr
    · rw [captureImage, if_neg (by tauto)] at hr
      simp at hr
  · intro hrej
    have hcond : ¬ (imageDedupHash snap.image ≠ st.lastClipboardHash ∧
        ClipboardDatabase.check_duplicate_hash false st.store
          (imageDedupHash snap.image) = false) := by
      rcases hrej with h | h
      · exact fun hc => hc.1 h
      · exact fun hc => by rw [hc.2] at h; exact Bool.false_ne_true h
    rw [captureImage, if_neg hcond]
    exact ⟨rfl, rfl⟩

/-- Witness for C2: a snapshot carrying both a fresh opaque image and
text, all flags on, produces exactly one Image record. -/
theorem classifier_image_priority_witness :
    (∀ r ∈ (onClipboardChange ⟨100, false, true, true⟩ initAppState
        ⟨true, ⟨50, 50, false, 3⟩, false, [], false, "", true, "hello"⟩).2,
      r.rtype = RType.image) ∧
    (imageDedupHash ⟨50, 50, false, 3⟩ ≠ initAppState.lastClipboardHash →
      ClipboardDatabase.check_duplicate_hash false initAppState.store
        (imageDedupHash ⟨50, 50, false, 3⟩) = false →
      ∃ r, (onClipboardChange ⟨100, false, true, true⟩ initAppState
        ⟨true, ⟨50, 50, false, 3⟩, false, [], false, "", true, "hello"⟩).2 = [r] ∧
        r.rtype = RType.image) ∧
    ((imageDedupHash ⟨50, 50, false, 3⟩ = initAppState.lastClipboardHash ∨
        ClipboardDatabase.check_duplicate_hash false initAppState.store
          (imageDedupHash ⟨50, 50, false, 3⟩) = true) →
      (onClipboardChange ⟨100, false, true, true⟩ initAppState
        ⟨true, ⟨50, 50, false, 3⟩, false, [], false, "", true, "hello"⟩).2 = [] ∧
        (onClipboardChange ⟨100, false, true, true⟩ initAppState
          ⟨true, ⟨50, 50, false, 3⟩, false, [], false, "", true, "hello"⟩).1 =
          initAppState) :=
  classifier_image_priority ⟨100, false, true, true⟩ initAppState
    ⟨true, ⟨50, 50, false, 3⟩, false, [], false, "", true, "hello"⟩
    (by decide) (by decide) (by decide)

/-- C3: with `enableFilePaths` disabled, a snapshot exposing only
local file URLs (no image, html, or text representation) produces no
record at all and leaves the state untouched — the paths are not
stored as a text record. -/
theorem classifier_filepaths_disabled_no_records (settings : SettingsM)
    (st : AppState) (snap : Snapshot)
    (hf : settings.enableFilePaths = false)
    (hic : st.isInternalCopy = false)
    (hi : snap.hasImage = false) (hh : snap.hasHtml = false)
    (ht : snap.hasText = false) (_hu : snap.hasUrls = true)
    (_hl : (snap.urls.filter (fun u => u.isLocal)).map UrlM.localPath ≠ []) :
    onClipboardChange settings st snap = (st, []) := by
  rw [onClipboardChange, if_neg (by simp [hic]), if_neg (by simp [hi]),
    if_neg (by simp [hf]), if_neg (by simp [hh]), if_neg (by simp [ht])]

/-- Witness for C3 at a concrete one-URL snapshot. -/
theorem classifier_filepaths_disabled_no_records_witness :
    onClipboardChange ⟨100, false, true, false⟩ initAppState
      ⟨false, nullQImage, true, [⟨true, "/tmp/a.txt"⟩], false, "", false, ""⟩ =
      (initAppState, []) :=
  classifier_filepaths_disabled_no_records ⟨100, false, true, false⟩ initAppState
    ⟨false, nullQImage, true, [⟨true, "/tmp/a.txt"⟩], false, "", false, ""⟩
    (by decide) (by decide) (by decide) (by decide) (by decide) (by decide)
    (by decide)

/-- C10: in the plain-text tier both the stored content and the hashed
bytes come from the whitespace-stripped clipboard text, so every
record it creates is stripped (stripping its content again changes
nothing) and carries the hash of the stripped text; and after an
accepted capture, a following snapshot whose text strips to the same
string is suppressed with no new record. -/
theorem plain_text_capture_trims_and_dedups (settings : SettingsM)
    (st : AppState) (snap : Snapshot)
    (hic : st.isInternalCopy = false) (hi : snap.hasImage = false)
    (hu : snap.hasUrls = false) (hh : snap.hasHtml = false)
    (ht : snap.hasText = true) (hne : pyStrip snap.text ≠ "") :
    (∀ r ∈ (onClipboardChange settings st snap).2,
      r.content = pyStrip snap.text ∧ r.fmt = "plain" ∧
        r.contentHash = md5hex (strBytes (pyStrip snap.text)) ∧
        pyStrip r.content = r.content) ∧
    (md5hex (strBytes (pyStrip snap.text)) ≠ st.lastClipboardHash →
      ClipboardDatabase.check_duplicate_hash false st.store
        (md5hex (strBytes (pyStrip snap.text))) = false →
      (onClipboardChange settings st snap).1.lastClipboardHash =
        md5hex (strBytes (pyStrip snap.text)) ∧
      ∀ snap2 : Snapshot, snap2.hasImage = false → snap2.hasUrls = false →
        snap2.hasHtml = false → snap2.hasText = true →
        pyStrip snap2.text = pyStrip snap.text →
        (onClipboardChange settings (onClipboardChange settings st snap).1
          snap2).2 = []) := by
  have hred : onClipboardChange settings st snap =
      captureText settings st (pyStrip snap.text) "plain" := by
    rw [onClipboardChange, if_neg (by simp [hic]), if_neg (by simp [hi]),
      if_neg (by simp [hu]), if_neg (by simp [hh]), if_pos ⟨ht, hne⟩]
  rw [hred]
  constructor
  · intro r hr
    obtain ⟨-, hc, hf, hh'⟩ := captureText_mem settings st (pyStrip snap.text) "plain" r hr
    exact ⟨hc, hf, hh', by rw [hc, pyStrip_idem]⟩
  · intro hne' hdup
    have hcap : captureText settings st (pyStrip snap.text) "plain" =
        appAddTextRecord settings st (pyStrip snap.text) "plain"
          (md5hex (strBytes (pyStrip snap.text))) := by
      rw [captureText, if_pos ⟨hne', hdup⟩]
    rw [hcap]
    refine ⟨rfl, ?_⟩
    intro snap2 hi2 hu2 hh2 ht2 heq
    have hne2 : pyStrip snap2.text ≠ "" := by rw [heq]; exact hne
    rw [onClipboardChange, if_neg (by simp [appAddTextRecord, hic]),
      if_neg (by simp [hi2]), if_neg (by simp [hu2]), if_neg (by simp [hh2]),
      if_pos ⟨ht2, hne2⟩, captureText, heq, if_neg (by simp [appAddTextRecord])]

/-- Witness for C10: capturing `"  A \t"` stores `"A"` with the hash of
`"A"`, and a follow-up `" A"` is suppressed. -/
theorem plain_text_capture_trims_and_dedups_witness :
    (∀ r ∈ (onClipboardChange ⟨100, false, true, true⟩ initAppState
        ⟨false, nullQImage, false, [], false, "", true, "  A \t"⟩).2,
      r.content = pyStrip "  A \t" ∧ r.fmt = "plain" ∧
        r.contentHash = md5hex (strBytes (pyStrip "  A \t")) ∧
        pyStrip r.content = r.content) ∧
    (md5hex (strBytes (pyStrip "  A \t")) ≠ initAppState.lastClipboardHash →
      ClipboardDatabase.check_duplicate_hash false initAppState.store
        (md5hex (strBytes (pyStrip "  A \t"))) = false →
      (onClipboardChange ⟨100, false, true, true⟩ initAppState
        ⟨false, nullQImage, false, [], false, "", true, "  A \t"⟩).1.lastClipboardHash =
        md5hex (strBytes (pyStrip "  A \t")) ∧
      ∀ snap2 : Snapshot, snap2.hasImage = false → snap2.hasUrls = false →
        snap2.hasHtml = false → snap2.hasText = true →
        pyStrip snap2.text = pyStrip "  A \t" →
        (onClipboardChange ⟨100, false, true, true⟩
          (onClipboardChange ⟨100, false, true, true⟩ initAppState
            ⟨false, nullQImage, false, [], false, "", true, "  A \t"⟩).1
          snap2).2 = []) :=
  plain_text_capture_trims_and_dedups ⟨100, false, true, true⟩ initAppState
    ⟨false, nullQImage, false, [], false, "", true, "  A \t"⟩
    (by decide) (by decide) (by decide) (by decide) (by decide) (by decide)

/-- Numeric core of the downscale bound: the floored dimensions
`⌊w·√(ma/(w·h))⌋` and `⌊h·√(ma/(w·h))⌋` multiply to at most `ma`. -/
theorem sqrt_scale_mul_le (w h ma : Nat) (hw : 0 < w) (hh : 0 < h) :
    Nat.sqrt (w * w * ma / (w * h)) * Nat.sqrt (h * h * ma / (w * h)) ≤ ma := by
  have hA : 0 < w * h := Nat.mul_pos hw hh
  have h1 : Nat.sqrt (w * w * ma / (w * h)) * Nat.sqrt (w * w * ma / (w * h)) ≤
      w * w * ma / (w * h) := Nat.sqrt_le _
  have h2 : Nat.sqrt (h * h * ma / (w * h)) * Nat.sqrt (h * h * ma / (w * h)) ≤
      h * h * ma / (w * h) := Nat.sqrt_le _
  have h3 : w * w * ma / (w * h) * (h * h * ma / (w * h)) ≤
      w * w * ma * (h * h * ma) / (w * h * (w * h)) := Nat.div_mul_div_le _ _ _ _
  have h4 : w * w * ma * (h * h * ma) / (w * h * (w * h)) = ma * ma := by
    have he : w * w * ma * (h * h * ma) = w * h * (w * h) * (ma * ma) := by ring
    rw [he, Nat.mul_div_cancel_left _ (Nat.mul_pos hA hA)]
  by_contra hcon
  push_neg at hcon
  have hsq : ma * ma <
      Nat.sqrt (w * w * ma / (w * h)) * Nat.sqrt (h * h * ma / (w * h)) *
        (Nat.sqrt (w * w * ma / (w * h)) * Nat.sqrt (h * h * ma / (w * h))) :=
    Nat.mul_self_lt_mul_self hcon
  have hle :
      Nat.sqrt (w * w * ma / (w * h)) * Nat.sqrt (h * h * ma / (w * h)) *
        (Nat.sqrt (w * w * ma / (w * h)) * Nat.sqrt (h * h * ma / (w * h))) ≤
      ma * ma := by
    calc Nat.sqrt (w * w * ma / (w * h)) * Nat.sqrt (h * h * ma / (w * h)) *
          (Nat.sqrt (w * w * ma / (w * h)) * Nat.sqrt (h * h * ma / (w * h)))
        = Nat.sqrt (w * w * ma / (w * h)) * Nat.sqrt (w * w * ma / (w * h)) *
          (Nat.sqrt (h * h * ma / (w * h)) * Nat.sqrt (h * h * ma / (w * h))) := by
          ring
      _ ≤ w * w * ma / (w * h) * (h * h * ma / (w * h)) :=
          Nat.mul_le_mul h1 h2
      _ ≤ w * w * ma * (h * h * ma) / (w * h * (w * h)) := h3
      _ = ma * ma := h4
  omega

/-- Fitting the source aspect ratio into a target box `tw × th` (both
positive) and clamping to at least 1×1 yields an area of at most
`tw * th`. -/
theorem qimageScaled_area_le (img : QImageM) (tw th : Nat)
    (htw : 0 < tw) (hth : 0 < th) :
    (qimageScaled img tw th).width * (qimageScaled img tw th).height ≤
      tw * th := by
  rw [qimageScaled]
  split_ifs with h1 h2
  · simp [nullQImage]
  · omega
  · rw [qsizeScaledKeepAspect]
    have hw : ¬ (img.width = 0 ∨ img.height = 0) := h1
    rw [if_neg hw]
    dsimp only
    split_ifs with hrw
    · -- (rw, th), rw ≤ tw
      have hmax : max (th * img.width / img.height) 1 ≤ tw := by
        rcases Nat.eq_zero_or_pos (th * img.width / img.height) with hz | hp
        · rw [hz]; omega
        · omega
      calc max (th * img.width / img.height) 1 * max th 1
          = max (th * img.width / img.height) 1 * th := by rw [Nat.max_eq_left hth]
        _ ≤ tw * th := Nat.mul_le_mul_right th hmax
    · -- (tw, tw * h / w), width binding
      push_neg at hrw
      have hw0 : 0 < img.width := by
        rcases Nat.eq_zero_or_pos img.width with hz | hp
        · exfalso; exact hw (Or.inl hz)
        · exact hp
      have hh0 : 0 < img.height := by
        rcases Nat.eq_zero_or_pos img.height with hz | hp
        · exfalso; exact hw (Or.inr hz)
        · exact hp
      have hkey : tw * img.height ≤ th * img.width := by
        have : tw + 1 ≤ th * img.width / img.height := hrw
        have h5 : (tw + 1) * img.height ≤ th * img.width / img.height * img.height :=
          Nat.mul_le_mul_right _ this
        have h6 : th * img.width / img.height * img.height ≤ th * img.width :=
          Nat.div_mul_le_self _ _
        calc tw * img.height ≤ (tw + 1) * img.height := by
              exact Nat.mul_le_mul_right _ (Nat.le_succ tw)
          _ ≤ th * img.width := le_trans h5 h6
      have hrh : tw * img.height / img.width ≤ th := by
        calc tw * img.height / img.width ≤ th * img.width / img.width :=
            Nat.div_le_div_right hkey
          _ = th := Nat.mul_div_cancel th hw0
      have hmax2 : max (tw * img.height / img.width) 1 ≤ th := by
        rcases Nat.eq_zero_or_pos (tw * img.height / img.width) with hz | hp
        · rw [hz]; omega
        · omega
      calc max tw 1 * max (tw * img.height / img.width) 1
          = tw * max (tw * img.height / img.width) 1 := by rw [Nat.max_eq_left htw]
        _ ≤ tw * th := Nat.mul_le_mul_left tw hmax2

/-- The resize step of the worker: an image within the area budget (or
with `save_original`) is kept as-is; an oversized one is scaled down to
an area of at most `max_area`. -/
theorem workerPersist_props (img : QImageM) (ma : Nat)
    (hw : 0 < img.width) (hh : 0 < img.height) (persist : QImageM)
    (hp : workerPersistImage img ma false = Except.ok persist) :
    (img.width * img.height ≤ ma → persist = img) ∧
    (img.width * img.height > ma → persist.width * persist.height ≤ ma) := by
  simp only [workerPersistImage, Bool.false_eq_true, if_false] at hp
  by_cases hbig : img.width * img.height > ma
  · rw [if_pos hbig, if_neg (by omega)] at hp
    injection hp with hp'
    constructor
    · intro hle; omega
    · intro _
      have harea : (qimageScaled img
          (Nat.sqrt (img.width * img.width * ma / (img.width * img.height)))
          (Nat.sqrt (img.height * img.height * ma / (img.width * img.height)))).width *
          (qimageScaled img
          (Nat.sqrt (img.width * img.width * ma / (img.width * img.height)))
          (Nat.sqrt (img.height * img.height * ma / (img.width * img.height)))).height ≤
          ma := by
        by_cases hz :
            Nat.sqrt (img.width * img.width * ma / (img.width * img.height)) = 0 ∨
            Nat.sqrt (img.height * img.height * ma / (img.width * img.height)) = 0
        · rw [qimageScaled, if_neg (show ¬ img.isNull by
            intro hnull
            rcases hnull with h0 | h0 <;> omega), if_pos hz]
          simp [nullQImage]
        · push_neg at hz
          refine le_trans (qimageScaled_area_le img _ _ ?_ ?_)
            (sqrt_scale_mul_le img.width img.height ma hw hh)
          · omega
          · omega
      rw [← hp']
      exact harea
  · rw [if_neg hbig] at hp
    injection hp with hp'
    exact ⟨fun _ => hp'.symm, fun hgt => absurd hgt hbig⟩

/-- C5 (amended): on a store with more than `max` records (distinct
ids), `trim_to_limit(max)` keeps exactly `max` records, and a record
survives iff fewer than `max` records beat it in the (timestamp
descending, id ascending) order — i.e. exactly the `max` most recent
records survive, but ties in timestamp are broken by the *smaller* id
(the `DESC` index is scanned forward, so among equal timestamps
smaller rowids sort first). -/
theorem trim_to_limit_keeps_top_max (st : Store) (max_count : Nat)
    (hnd : (st.recs.map Rec.id).Nodup)
    (hgt : max_count < st.recs.length) :
    (ClipboardDatabase.trim_to_limit false st max_count).recs.length = max_count ∧
    ∀ r ∈ st.recs,
      (r ∈ (ClipboardDatabase.trim_to_limit false st max_count).recs ↔
        st.recs.countP (fun x => decide (recKeyLt r x)) < max_count) := by
  have hperm : List.Perm (sortDescRecs st.recs) st.recs :=
    List.perm_insertionSort recDescLE st.recs
  have hsorted : List.Sorted recDescLE (sortDescRecs st.recs) :=
    List.sorted_insertionSort recDescLE st.recs
  have hndS : ((sortDescRecs st.recs).map Rec.id).Nodup :=
    ((hperm.map Rec.id).nodup_iff).mpr hnd
  have hrecs : (ClipboardDatabase.trim_to_limit false st max_count).recs =
      ClipboardDatabase.trimRecs st.recs max_count := rfl
  have hlenS : (sortDescRecs st.recs).length = st.recs.length := hperm.length_eq
  have hmem : ∀ r ∈ st.recs,
      (r ∈ ClipboardDatabase.trimRecs st.recs max_count ↔
        r ∈ (sortDescRecs st.recs).take max_count) := by
    intro r hr
    unfold ClipboardDatabase.trimRecs
    rw [List.mem_filter]
    constructor
    · rintro ⟨-, hid⟩
      obtain ⟨x, hx, hxid⟩ := List.mem_map.mp (of_decide_eq_true hid)
      have hxl : x ∈ st.recs := hperm.mem_iff.mp (List.take_subset _ _ hx)
      have hxr : x = r := List.inj_on_of_nodup_map hnd hxl hr hxid
      exact hxr ▸ hx
    · intro hx
      exact ⟨hr, decide_eq_true (List.mem_map_of_mem Rec.id hx)⟩
  have hnodupS : (sortDescRecs st.recs).Nodup := List.Nodup.of_map Rec.id hndS
  have hdisj : List.Disjoint ((sortDescRecs st.recs).take max_count)
      ((sortDescRecs st.recs).drop max_count) := by
    have hS := hnodupS
    rw [← List.take_append_drop max_count (sortDescRecs st.recs),
      List.nodup_append] at hS
    exact hS.2.2
  constructor
  · rw [hrecs]
    have hfl : ClipboardDatabase.trimRecs st.recs max_count =
        st.recs.filter (fun r => decide (r.id ∈
          ((sortDescRecs st.recs).take max_count).map Rec.id)) := rfl
    rw [hfl, ← List.countP_eq_length_filter, ← hperm.countP_eq]
    have hsplit : (sortDescRecs st.recs).countP
        (fun r => decide (r.id ∈
          ((sortDescRecs st.recs).take max_count).map Rec.id)) =
        ((sortDescRecs st.recs).take max_count).countP
          (fun r => decide (r.id ∈
            ((sortDescRecs st.recs).take max_count).map Rec.id)) +
        ((sortDescRecs st.recs).drop max_count).countP
          (fun r => decide (r.id ∈
            ((sortDescRecs st.recs).take max_count).map Rec.id)) := by
      rw [← List.countP_append, List.take_append_drop]
    have htake : ((sortDescRecs st.recs).take max_count).countP
        (fun r => decide (r.id ∈
          ((sortDescRecs st.recs).take max_count).map Rec.id)) =
        ((sortDescRecs st.recs).take max_count).length := by
      apply List.countP_eq_length.mpr
      intro x hx
      exact decide_eq_true (List.mem_map_of_mem Rec.id hx)
    have hdrop : ((sortDescRecs st.recs).drop max_count).countP
        (fun r => decide (r.id ∈
          ((sortDescRecs st.recs).take max_count).map Rec.id)) = 0 := by
      apply List.countP_eq_zero.mpr
      intro x hx
      intro hpx
      obtain ⟨y, hy, hyid⟩ := List.mem_map.mp (of_decide_eq_true hpx)
      have hyS : y ∈ sortDescRecs st.recs := List.take_subset _ _ hy
      have hxS : x ∈ sortDescRecs st.recs := List.drop_subset _ _ hx
      have hyx : y = x := List.inj_on_of_nodup_map hndS hyS hxS hyid
      exact hdisj (hyx ▸ hy) hx
    rw [hsplit, htake, hdrop, List.length_take, hlenS]
    omega
  · intro r hr
    rw [hrecs, hmem r hr,
      mem_take_sorted_iff (sortDescRecs st.recs) max_count hsorted hndS r
        (hperm.mem_iff.mpr hr),
      hperm.countP_eq]

/-- Witness for the amended C5: three records with tied timestamps
trimmed to two keep the two with the smaller ids (the boundary tie is
decided in favor of the smaller id). -/
theorem trim_to_limit_keeps_top_max_witness :
    ((ClipboardDatabase.trim_to_limit false
      ⟨[⟨1, RType.text, "x", [], 5, [], "plain", 0, 0, [1]⟩,
        ⟨2, RType.text, "y", [], 5, [], "plain", 0, 0, [2]⟩,
        ⟨3, RType.text, "z", [], 5, [], "plain", 0, 0, [3]⟩], 4⟩ 2).recs.length = 2) ∧
    ∀ r ∈ [⟨1, RType.text, "x", [], 5, [], "plain", 0, 0, [1]⟩,
        ⟨2, RType.text, "y", [], 5, [], "plain", 0, 0, [2]⟩,
        (⟨3, RType.text, "z", [], 5, [], "plain", 0, 0, [3]⟩ : Rec)],
      (r ∈ (ClipboardDatabase.trim_to_limit false
        ⟨[⟨1, RType.text, "x", [], 5, [], "plain", 0, 0, [1]⟩,
          ⟨2, RType.text, "y", [], 5, [], "plain", 0, 0, [2]⟩,
          ⟨3, RType.text, "z", [], 5, [], "plain", 0, 0, [3]⟩], 4⟩ 2).recs ↔
        ([⟨1, RType.text, "x", [], 5, [], "plain", 0, 0, [1]⟩,
          ⟨2, RType.text, "y", [], 5, [], "plain", 0, 0, [2]⟩,
          ⟨3, RType.text, "z", [], 5, [], "plain", 0, 0, [3]⟩] : List Rec).countP
          (fun x => decide (recKeyLt r x)) < 2) :=
  trim_to_limit_keeps_top_max
    ⟨[⟨1, RType.text, "x", [], 5, [], "plain", 0, 0, [1]⟩,
      ⟨2, RType.text, "y", [], 5, [], "plain", 0, 0, [2]⟩,
      ⟨3, RType.text, "z", [], 5, [], "plain", 0, 0, [3]⟩], 4⟩ 2
    (by decide) (by decide)

/-- C5 counterexample to the stated tie-break: two records share a
timestamp and `trim_to_limit(1)` keeps the record with the *smaller*
id (id 1), not the larger one the claim promises — `ORDER BY timestamp
DESC` over the `DESC`-declared index lists the smaller rowid first
among equal timestamps. -/
theorem trim_to_limit_tie_keeps_smaller_id_counterexample :
    (ClipboardDatabase.trim_to_limit false
      ⟨[⟨1, RType.text, "x", [], 5, [], "plain", 0, 0, [1]⟩,
        ⟨2, RType.text, "y", [], 5, [], "plain", 0, 0, [2]⟩], 3⟩ 1).recs.map
        Rec.id = [1] ∧
    (ClipboardDatabase.trim_to_limit false
      ⟨[⟨1, RType.text, "x", [], 5, [], "plain", 0, 0, [1]⟩,
        ⟨2, RType.text, "y", [], 5, [], "plain", 0, 0, [2]⟩], 3⟩ 1).recs.map
        Rec.id ≠ [2] := by
  decide

/-- C6: ingesting a positive-dimension image with `saveOriginal=false`
persists a record whose area is at most `maxAreaPixels` when the input
was oversized, and whose dimensions are the original ones when it
already fit; the encoding of the persisted image is PNG iff it has an
alpha channel, else JPEG at fixed quality 90 — in particular an
already-fitting opaque image is stored as its exact JPEG-90
encoding. -/
theorem image_ingest_area_bound_and_format (img : QImageM) (ma : Nat)
    (st : Store) (ts : Nat) (out : Store × Rec × List Nat)
    (hw : 0 < img.width) (hh : 0 < img.height)
    (h : imageProcessWorkerE img ma false st ts = Except.ok out) :
    (img.width * img.height > ma → out.2.1.width * out.2.1.height ≤ ma) ∧
    (img.width * img.height ≤ ma →
      out.2.1.width = img.width ∧ out.2.1.height = img.height ∧
      (out.2.1.fmt = "PNG" ↔ img.hasAlpha = true) ∧
      (img.hasAlpha = false → out.2.1.fmt = "JPEG" ∧
        out.2.1.blob = encodeImage img ImgFmt.JPEG 90)) ∧
    (∀ persist, workerPersistImage img ma false = Except.ok persist →
      (out.2.1.fmt = "PNG" ↔ persist.hasAlpha = true) ∧
      (persist.hasAlpha = false → out.2.1.fmt = "JPEG" ∧
        out.2.1.blob = qimageSaveBytes persist ImgFmt.JPEG 90) ∧
      (persist.hasAlpha = true →
        out.2.1.blob = qimageSaveBytes persist ImgFmt.PNG (-1))) := by
  obtain ⟨persist0, hper0, hty, hid, hwid, hhei, hfmt, hblob, hhash, hrecs,
    hnid, hout2⟩ := imageProcessWorkerE_fields img ma false st ts out h
  obtain ⟨hfit, hbound⟩ := workerPersist_props img ma hw hh persist0 hper0
  have hnotnull : ¬ img.isNull := by
    intro hnull
    rcases hnull with h0 | h0 <;> omega
  have hiff0 : (out.2.1.fmt = "PNG" ↔ persist0.hasAlpha = true) ∧
      (persist0.hasAlpha = false → out.2.1.fmt = "JPEG" ∧
        out.2.1.blob = qimageSaveBytes persist0 ImgFmt.JPEG 90) ∧
      (persist0.hasAlpha = true →
        out.2.1.blob = qimageSaveBytes persist0 ImgFmt.PNG (-1)) := by
    refine ⟨?_, ?_, ?_⟩
    · rw [hfmt]
      cases hpa : persist0.hasAlpha <;> simp [hpa, ImgFmt.name]
    · intro hpa
      rw [hfmt, hblob]
      simp [hpa, ImgFmt.name]
    · intro hpa
      rw [hblob]
      simp [hpa]
  refine ⟨?_, ?_, fun persist hper => ?_⟩
  · intro hbig
    rw [hwid, hhei]
    exact hbound hbig
  · intro hle
    have hpi : persist0 = img := hfit hle
    obtain ⟨hiff1, hiff2, -⟩ := hiff0
    rw [hpi] at hiff1 hiff2
    refine ⟨by rw [hwid, hpi], by rw [hhei, hpi], hiff1, ?_⟩
    intro hpa
    obtain ⟨hf, hb⟩ := hiff2 hpa
    refine ⟨hf, ?_⟩
    rw [hb, qimageSaveBytes, if_neg hnotnull]
  · have hpq : persist = persist0 := by
      rw [hper0] at hper
      injection hper with hper'
      exact hper'.symm
    rw [hpq]
    exact hiff0

/-- Witness for C6: a 100×100 opaque image within the 4,000,000-pixel
budget is persisted at its original dimensions as its exact JPEG-90
encoding, not as PNG. -/
theorem image_ingest_area_bound_and_format_witness :
    (⟨1, RType.image, "", [255, 216, 100, 100, 0, 7, 90], 0,
        [137, 80, 78, 71, 64, 64, 0, 7], "JPEG", 100, 100,
        [1, 255, 216, 100, 100, 0, 7, 90]⟩ : Rec).width =
      (⟨100, 100, false, 7⟩ : QImageM).width ∧
    (⟨1, RType.image, "", [255, 216, 100, 100, 0, 7, 90], 0,
        [137, 80, 78, 71, 64, 64, 0, 7], "JPEG", 100, 100,
        [1, 255, 216, 100, 100, 0, 7, 90]⟩ : Rec).height =
      (⟨100, 100, false, 7⟩ : QImageM).height ∧
    ((⟨1, RType.image, "", [255, 216, 100, 100, 0, 7, 90], 0,
        [137, 80, 78, 71, 64, 64, 0, 7], "JPEG", 100, 100,
        [1, 255, 216, 100, 100, 0, 7, 90]⟩ : Rec).fmt = "PNG" ↔
      (⟨100, 100, false, 7⟩ : QImageM).hasAlpha = true) ∧
    ((⟨100, 100, false, 7⟩ : QImageM).hasAlpha = false →
      (⟨1, RType.image, "", [255, 216, 100, 100, 0, 7, 90], 0,
        [137, 80, 78, 71, 64, 64, 0, 7], "JPEG", 100, 100,
        [1, 255, 216, 100, 100, 0, 7, 90]⟩ : Rec).fmt = "JPEG" ∧
      (⟨1, RType.image, "", [255, 216, 100, 100, 0, 7, 90], 0,
        [137, 80, 78, 71, 64, 64, 0, 7], "JPEG", 100, 100,
        [1, 255, 216, 100, 100, 0, 7, 90]⟩ : Rec).blob =
        encodeImage ⟨100, 100, false, 7⟩ ImgFmt.JPEG 90) :=
  (image_ingest_area_bound_and_format ⟨100, 100, false, 7⟩ 4000000
      Store.empty 0
      (⟨[⟨1, RType.image, "", [255, 216, 100, 100, 0, 7, 90], 0,
          [137, 80, 78, 71, 64, 64, 0, 7], "JPEG", 100, 100,
          [1, 255, 216, 100, 100, 0, 7, 90]⟩], 2⟩,
        ⟨1, RType.image, "", [255, 216, 100, 100, 0, 7, 90], 0,
          [137, 80, 78, 71, 64, 64, 0, 7], "JPEG", 100, 100,
          [1, 255, 216, 100, 100, 0, 7, 90]⟩,
        [1, 255, 216, 100, 100, 0, 7, 90])
      (by decide) (by decide) (by rfl)).2.1 (by decide)

/-- C1 counterexample: for a concrete captured opaque image the Dedup
Guard's hash (the MD5 of the PNG encoding of the original image) does
NOT equal the persisted record's `content_hash` (the MD5 of the final
encoded bytes — JPEG here, since the image has no alpha channel), so
the dedup hash is not computed over the bytes as persisted. -/
theorem image_dedup_hash_mismatch_counterexample :
    (onClipboardChange ⟨100, false, true, true⟩ initAppState
        ⟨true, ⟨100, 100, false, 7⟩, false, [], false, "", false, ""⟩).2.map
        Rec.contentHash =
      [md5hex (encodeImage ⟨100, 100, false, 7⟩ ImgFmt.JPEG 90)] ∧
    imageDedupHash ⟨100, 100, false, 7⟩ ≠
      md5hex (encodeImage ⟨100, 100, false, 7⟩ ImgFmt.JPEG 90) := by
  decide

/-- C1 (amended): the Dedup Guard hashes the PNG encoding of the
original image; this coincides with the persisted record's
`content_hash` exactly when the image is persisted as-is in PNG form,
i.e. when it has an alpha channel and is not downscaled (`saveOriginal`
set, or already within the area limit). -/
theorem image_dedup_hash_eq_contentHash_of_alpha_within_limit
    (img : QImageM) (ma : Nat) (so : Bool) (st : Store) (ts : Nat)
    (out : Store × Rec × List Nat)
    (halpha : img.hasAlpha = true)
    (hfit : so = true ∨ img.width * img.height ≤ ma)
    (h : imageProcessWorkerE img ma so st ts = Except.ok out) :
    out.2.1.contentHash = imageDedupHash img ∧ out.2.1.fmt = "PNG" := by
  have hper : workerPersistImage img ma so = Except.ok img := by
    rw [workerPersistImage]
    by_cases hso : so = true
    · rw [if_pos hso]
    · rcases hfit with h1 | h1
      · exact absurd h1 hso
      · rw [if_neg hso, if_neg (by omega)]
  rw [imageProcessWorkerE, hper] at h
  injection h with h'
  subst h'
  simp [halpha, imageDedupHash, ImgFmt.name]

/-- Witness for the amended C1 at a concrete 10×10 alpha image. -/
theorem image_dedup_hash_eq_contentHash_witness :
    (⟨1, RType.image, "", [137, 80, 78, 71, 10, 10, 1, 5], 0,
        [137, 80, 78, 71, 64, 64, 1, 5], "PNG", 10, 10,
        [1, 137, 80, 78, 71, 10, 10, 1, 5]⟩ : Rec).contentHash =
      imageDedupHash ⟨10, 10, true, 5⟩ ∧
    (⟨1, RType.image, "", [137, 80, 78, 71, 10, 10, 1, 5], 0,
        [137, 80, 78, 71, 64, 64, 1, 5], "PNG", 10, 10,
        [1, 137, 80, 78, 71, 10, 10, 1, 5]⟩ : Rec).fmt = "PNG" :=
  image_dedup_hash_eq_contentHash_of_alpha_within_limit
    ⟨10, 10, true, 5⟩ 4194304 false Store.empty 0
    (⟨[⟨1, RType.image, "", [137, 80, 78, 71, 10, 10, 1, 5], 0,
        [137, 80, 78, 71, 64, 64, 1, 5], "PNG", 10, 10,
        [1, 137, 80, 78, 71, 10, 10, 1, 5]⟩], 2⟩,
      ⟨1, RType.image, "", [137, 80, 78, 71, 10, 10, 1, 5], 0,
        [137, 80, 78, 71, 64, 64, 1, 5], "PNG", 10, 10,
        [1, 137, 80, 78, 71, 10, 10, 1, 5]⟩,
      [1, 137, 80, 78, 71, 10, 10, 1, 5])
    (by decide) (Or.inr (by decide)) (by rfl)

/-- C4: capturing text `a`, then `b`, then `a` again (with `a` still in
the store) suppresses the third capture: the store lookup
`check_duplicate_hash(hash(a))` reports a match even though
`last_clipboard_hash` is `hash(b)` at that moment, and exactly the two
records for `a` and `b` remain. -/
theorem dedup_store_suppresses_third_capture (settings : SettingsM)
    (a b : String) (hsa : pyStrip a = a) (hsb : pyStrip b = b)
    (ha : a ≠ "") (hb : b ≠ "") (hab : a ≠ b)
    (hmax : 2 ≤ settings.maxHistory) :
    let s1 := (onClipboardChange settings initAppState (textOnlySnapshot a)).1
    let s2 := (onClipboardChange settings s1 (textOnlySnapshot b)).1
    let third := onClipboardChange settings s2 (textOnlySnapshot a)
    s2.lastClipboardHash = md5hex (strBytes b) ∧
    ClipboardDatabase.check_duplicate_hash false s2.store
      (md5hex (strBytes a)) = true ∧
    third.2 = [] ∧
    third.1.store.recs.map Rec.content = [a, b] ∧
    third.1.store.recs.length = 2 := by
  intro s1 s2 third
  have hA : pyStrip a ≠ "" := by rw [hsa]; exact ha
  have hB : pyStrip b ≠ "" := by rw [hsb]; exact hb
  have hAB : md5hex (strBytes a) ≠ md5hex (strBytes b) := md5hex_strBytes_ne hab
  have e1 : s1 = ⟨⟨[⟨1, RType.text, a, [], 0, [], "plain", 0, 0,
      md5hex (strBytes a)⟩], 2⟩, md5hex (strBytes a), false, 1⟩ := by
    show (onClipboardChange settings initAppState (textOnlySnapshot a)).1 = _
    rw [onClipboardChange_textOnly settings initAppState a rfl hA, hsa,
      captureText_accept_eq settings initAppState a "plain" (md5hex_ne_nil _)
        rfl (by simp [initAppState, Store.empty]; omega)]
    rfl
  have hic1 : s1.isInternalCopy = false := by rw [e1]
  have e2 : s2 = ⟨⟨[⟨1, RType.text, a, [], 0, [], "plain", 0, 0,
        md5hex (strBytes a)⟩,
      ⟨2, RType.text, b, [], 1, [], "plain", 0, 0, md5hex (strBytes b)⟩], 3⟩,
      md5hex (strBytes b), false, 2⟩ := by
    show (onClipboardChange settings s1 (textOnlySnapshot b)).1 = _
    rw [onClipboardChange_textOnly settings s1 b hic1 hB, hsb,
      captureText_accept_eq settings s1 b "plain"
        (by rw [e1]; exact md5hex_strBytes_ne (Ne.symm hab))
        (by rw [e1]
            simp only [ClipboardDatabase.check_duplicate_hash,
              Bool.false_eq_true, if_false, List.any_cons, List.any_nil,
              Bool.or_false, decide_eq_false_iff_not]
            exact hAB)
        (by rw [e1]; simp; omega), e1]
    rfl
  have hdup2 : ClipboardDatabase.check_duplicate_hash false s2.store
      (md5hex (strBytes a)) = true := by
    rw [e2]
    simp [ClipboardDatabase.check_duplicate_hash]
  have e3 : third = (s2, []) := by
    show onClipboardChange settings s2 (textOnlySnapshot a) = _
    rw [onClipboardChange_textOnly settings s2 a (by rw [e2]) hA, hsa,
      captureText_reject_eq settings s2 a "plain" (Or.inr hdup2)]
  refine ⟨by rw [e2], hdup2, by rw [e3], ?_, ?_⟩
  · rw [e3]
    simp only [e2, List.map_cons, List.map_nil]
  · rw [e3, e2]
    rfl

/-- Witness for C4: the scenario with the literal texts "A" and "B". -/
theorem dedup_store_suppresses_third_capture_witness :
    let settings : SettingsM := ⟨100, false, true, true⟩
    let s1 := (onClipboardChange settings initAppState (textOnlySnapshot "A")).1
    let s2 := (onClipboardChange settings s1 (textOnlySnapshot "B")).1
    let third := onClipboardChange settings s2 (textOnlySnapshot "A")
    s2.lastClipboardHash = md5hex (strBytes "B") ∧
    ClipboardDatabase.check_duplicate_hash false s2.store
      (md5hex (strBytes "A")) = true ∧
    third.2 = [] ∧
    third.1.store.recs.map Rec.content = ["A", "B"] ∧
    third.1.store.recs.length = 2 :=
  dedup_store_suppresses_third_capture ⟨100, false, true, true⟩ "A" "B"
    (by decide) (by decide) (by decide) (by decide) (by decide) (by decide)

/-- C8: for a nonempty sequence of edit events each arriving within
700 ms of the previous one, starting from an idle debouncer, exactly
one persisted write occurs — after the last event — and it writes the
last edit's text to the record that was current at that edit (even if
the UI selection changes before the deadline, nothing cancels or
re-keys the armed timer, which is keyed to the edit-time record id). -/
theorem debounce_single_write_last_text (store0 : Store)
    (e : EditEvent) (events : List EditEvent)
    (hchain : List.Chain' (fun x y => y.t < x.t + SAVE_DEBOUNCE_MS) (e :: events))
    (hrid : ((e :: events).getLast (List.cons_ne_nil e events)).rid ≠ 0) :
    runEdits ⟨none, none, none, store0, []⟩ (e :: events) =
      ⟨none, none, none,
        ClipboardDatabase.update_text_content false store0
          ((e :: events).getLast (List.cons_ne_nil e events)).rid
          ((e :: events).getLast (List.cons_ne_nil e events)).txt,
        [(((e :: events).getLast (List.cons_ne_nil e events)).rid,
          ((e :: events).getLast (List.cons_ne_nil e events)).txt)]⟩ := by
  rw [runEdits, foldl_stepEdit_chain events e _ (by intro d hd; cases hd) hchain]
  simp only [flushTimer, doSavePending]
  rw [if_pos hrid]
  simp

/-- Witness for C8: three edits to record 5 at 0 ms, 100 ms and 200 ms
produce exactly one write, carrying the third edit's text. -/
theorem debounce_single_write_last_text_witness :
    runEdits ⟨none, none, none, Store.empty, []⟩
      [⟨5, "one", 0⟩, ⟨5, "two", 100⟩, ⟨5, "three", 200⟩] =
      ⟨none, none, none,
        ClipboardDatabase.update_text_content false Store.empty 5 "three",
        [(5, "three")]⟩ :=
  debounce_single_write_last_text Store.empty ⟨5, "one", 0⟩
    [⟨5, "two", 100⟩, ⟨5, "three", 200⟩]
    (by simp [List.chain'_cons, SAVE_DEBOUNCE_MS]) (by decide)

/-- Witness for C7 at a concrete zero-width snapshot. -/
theorem zero_dimension_image_rejected_witness :
    (∀ r ∈ (onClipboardChange ⟨100, false, true, true⟩ initAppState
        ⟨true, ⟨0, 55, true, 3⟩, false, [], false, "", true, "hello"⟩).2,
      r.rtype = RType.text) ∧
    (∀ (img : QImageM) (ma : Nat) (so : Bool) (store : Store) (ts : Nat),
      ∃ out, imageProcessWorkerE img ma so store ts = Except.ok out) :=
  zero_dimension_image_rejected ⟨100, false, true, true⟩ initAppState
    ⟨true, ⟨0, 55, true, 3⟩, false, [], false, "", true, "hello"⟩
    (by decide) (Or.inl (by decide))
